import Mathlib

/-!
Shallow embedding of `src/2020/day-24/part2.py`: a cellular automaton on an
infinite hexagonal grid (Advent of Code 2020, day 24, part 2).

Tiles are integer coordinate pairs; the active set is a `Finset`.  Python's
`%` on integers is floor modulo, which for the positive divisor `2` agrees
with Lean's `Int.emod` (both give results in `{0, 1}`), so `tile.y % 2`
translates literally.  Python generators are modelled as lists (the program
always consumes them fully), and a `ValueError` raised by the `Direction`
enum constructor is modelled with `Except Unit`.
-/

namespace Day24

/-- The `Vector` namedtuple of the source: a hex tile coordinate. -/
@[ext]
structure Vector where
  x : ℤ
  y : ℤ
deriving DecidableEq, Repr

/-- The `Direction` enum of the source, in declaration order. -/
inductive Direction where
  | East
  | West
  | Northeast
  | Northwest
  | Southeast
  | Southwest
deriving DecidableEq, Repr

/-- `add_vectors(a, b)` from the source. -/
def add_vectors (a b : Vector) : Vector :=
  ⟨a.x + b.x, a.y + b.y⟩

/-- The `NEIGHBOR_OFFSETS` dict of the source: each direction maps to a
lambda taking `odd_row` to an offset vector. -/
def NEIGHBOR_OFFSETS : Direction → ℤ → Vector
  | Direction.East => fun _ => ⟨1, 0⟩
  | Direction.West => fun _ => ⟨-1, 0⟩
  | Direction.Northeast => fun odd_row => ⟨1 - odd_row, -1⟩
  | Direction.Northwest => fun odd_row => ⟨-odd_row, -1⟩
  | Direction.Southeast => fun odd_row => ⟨1 - odd_row, 1⟩
  | Direction.Southwest => fun odd_row => ⟨-odd_row, 1⟩

/-- `find_neighbor(tile, direction)` from the source; `odd_row = tile.y % 2`
is inlined (Python floor mod by 2 = `Int.emod` by 2). -/
def find_neighbor (tile : Vector) (direction : Direction) : Vector :=
  add_vectors tile (NEIGHBOR_OFFSETS direction (tile.y % 2))

/-- The `Direction(value)` enum lookup: `some` on the six valid value
strings, `none` models the `ValueError` raised on any other string. -/
def Direction.ofChars : List Char → Option Direction
  | ['e'] => some Direction.East
  | ['w'] => some Direction.West
  | ['n', 'e'] => some Direction.Northeast
  | ['n', 'w'] => some Direction.Northwest
  | ['s', 'e'] => some Direction.Southeast
  | ['s', 'w'] => some Direction.Southwest
  | _ => none

/-- The loop of `path_to_directions`, carrying the `prev` accumulator.
On `e`/`w` it emits `Direction(prev + c)` (error if that lookup fails) and
clears `prev`; on any other character it sets `prev` to that character; a
pending `prev` at the end of the string is simply discarded. -/
def pathAux : List Char → List Char → Except Unit (List Direction)
  | [], _ => Except.ok []
  | c :: cs, prev =>
    if c = 'e' ∨ c = 'w' then
      match Direction.ofChars (prev ++ [c]) with
      | some d =>
        match pathAux cs [] with
        | Except.ok rest => Except.ok (d :: rest)
        | Except.error e => Except.error e
      | none => Except.error ()
    else
      pathAux cs [c]

/-- `path_to_directions(path)` from the source, as the eager consumption of
the Python generator: the list of directions, or the first `ValueError`. -/
def path_to_directions (path : List Char) : Except Unit (List Direction) :=
  pathAux path []

/-- `directions_to_coords(directions)` from the source: fold
`find_neighbor` from the origin. -/
def directions_to_coords (directions : List Direction) : Vector :=
  directions.foldl find_neighbor ⟨0, 0⟩

/-- Python's `a ^ b` on sets: symmetric difference. -/
def setXor (a b : Finset Vector) : Finset Vector :=
  (a \ b) ∪ (b \ a)

/-- `active_values(flips)` from the source: start from the empty set and
fold `grid ^= {val}` over the flips. -/
def active_values (flips : List Vector) : Finset Vector :=
  flips.foldl (fun grid val => setXor grid {val}) ∅

/-- The `for direction in Direction` iteration order (enum declaration
order). -/
def directionList : List Direction :=
  [Direction.East, Direction.West, Direction.Northeast,
   Direction.Northwest, Direction.Southeast, Direction.Southwest]

/-- `get_neighbor_cells(grid, cell)` from the source (the `grid` argument is
unused there too): the six neighbors of `cell`, in enum order. -/
def get_neighbor_cells (_grid : Finset Vector) (cell : Vector) : List Vector :=
  directionList.map (find_neighbor cell)

/-- `get_active_neighbor_count(grid, cell)` from the source:
`sum(1 for neighbor in get_neighbor_cells(grid, cell) if neighbor in grid)`. -/
def get_active_neighbor_count (grid : Finset Vector) (cell : Vector) : ℕ :=
  (get_neighbor_cells grid cell).countP (fun neighbor => decide (neighbor ∈ grid))

/-- `get_active_cells(grid)` from the source: the grid itself. -/
def get_active_cells (grid : Finset Vector) : Finset Vector :=
  grid

/-- `get_accessible_inactive_cells(grid)` from the source: the set of all
neighbors of all cells of the grid, minus the grid. -/
def get_accessible_inactive_cells (grid : Finset Vector) : Finset Vector :=
  (grid.biUnion fun cell => (get_neighbor_cells grid cell).toFinset) \ grid

/-- `get_changes(grid)` from the source: a generator yielding the active
cells whose active-neighbor count is 0 or above 2, then the accessible
inactive cells whose count is exactly 2.  Its output is consumed only by
`set(changes)` in `apply_changes`, so it is modelled as the set of yielded
cells (the yield order is irrelevant and Python set iteration order is
arbitrary anyway). -/
def get_changes (grid : Finset Vector) : Finset Vector :=
  ((get_active_cells grid).filter fun cell =>
      get_active_neighbor_count grid cell = 0 ∨
        get_active_neighbor_count grid cell > 2)
  ∪ ((get_accessible_inactive_cells grid).filter fun cell =>
      get_active_neighbor_count grid cell = 2)

/-- `apply_changes(grid, changes)` from the source: `grid ^ set(changes)`. -/
def apply_changes (grid : Finset Vector) (changes : Finset Vector) : Finset Vector :=
  setXor grid changes

/-- `step_simulation(grid)` from the source. -/
def step_simulation (grid : Finset Vector) : Finset Vector :=
  apply_changes grid (get_changes grid)

/-- `run_simulation(grid)` from the source: the infinite generator
`yield grid; grid = step_simulation(grid)`, modelled by its index function
(unfolding the loop `n` times yields the `n`-th element). -/
def run_simulation (grid : Finset Vector) : ℕ → Finset Vector
  | 0 => grid
  | n + 1 => run_simulation (step_simulation grid) n

/-- `nth(iterable, n)` from the source: `next(islice(iterable, n, None),
default)`, i.e. the element at 0-based index `n`; the stream here is total,
so the `default` branch is never taken. -/
def nth (iterable : ℕ → Finset Vector) (n : ℕ) : Finset Vector :=
  iterable n

/-- `load_grid(lines)` from the source.  The parameter `lines` is
immediately shadowed by a rebinding that reads the global `fp` (modelled as
a second argument holding the open file's lines), strips each line, parses
it, resolves it to a tile, and folds `active_values`. -/
def load_grid (lines : List String) (fp : List String) : Except Unit (Finset Vector) :=
  let lines := fp.map fun line => line.trim
  do
    let line_directions ← lines.mapM fun path => path_to_directions path.toList
    let tiles := line_directions.map directions_to_coords
    pure (active_values tiles)

/-- The `assert` lines of the source, checked on the embedding: the six
neighbors of `(0,0)` (even row) and of `(1,1)` (odd row). -/
theorem find_neighbor_source_asserts :
    find_neighbor ⟨0, 0⟩ Direction.East = ⟨1, 0⟩ ∧
    find_neighbor ⟨0, 0⟩ Direction.West = ⟨-1, 0⟩ ∧
    find_neighbor ⟨0, 0⟩ Direction.Northeast = ⟨1, -1⟩ ∧
    find_neighbor ⟨0, 0⟩ Direction.Northwest = ⟨0, -1⟩ ∧
    find_neighbor ⟨0, 0⟩ Direction.Southeast = ⟨1, 1⟩ ∧
    find_neighbor ⟨0, 0⟩ Direction.Southwest = ⟨0, 1⟩ ∧
    find_neighbor ⟨1, 1⟩ Direction.East = ⟨2, 1⟩ ∧
    find_neighbor ⟨1, 1⟩ Direction.West = ⟨0, 1⟩ ∧
    find_neighbor ⟨1, 1⟩ Direction.Northeast = ⟨1, 0⟩ ∧
    find_neighbor ⟨1, 1⟩ Direction.Northwest = ⟨0, 0⟩ ∧
    find_neighbor ⟨1, 1⟩ Direction.Southeast = ⟨1, 2⟩ ∧
    find_neighbor ⟨1, 1⟩ Direction.Southwest = ⟨0, 2⟩ := by
  decide

/-! Spec-side definitions: vocabulary the specification introduces that has
no direct counterpart in the source. -/

/-- The spec's `opposite` pairing of directions: East/West,
Northeast/Southwest, Northwest/Southeast. -/
def opposite : Direction → Direction
  | Direction.East => Direction.West
  | Direction.West => Direction.East
  | Direction.Northeast => Direction.Southwest
  | Direction.Southwest => Direction.Northeast
  | Direction.Northwest => Direction.Southeast
  | Direction.Southeast => Direction.Northwest

/-! Basic geometry of the neighbor relation. -/

/-- Stepping in a direction and then in its opposite returns to the start,
for arbitrary (also negative) coordinates. -/
theorem neighbor_opposite (t : Vector) (d : Direction) :
    find_neighbor (find_neighbor t d) (opposite d) = t := by
  cases t with
  | mk x y =>
    cases d <;>
      simp [find_neighbor, add_vectors, NEIGHBOR_OFFSETS, opposite, Vector.ext_iff] <;>
      omega

/-- From a fixed tile, distinct directions lead to distinct neighbors. -/
theorem neighbor_injective (t : Vector) (d d' : Direction)
    (h : find_neighbor t d = find_neighbor t d') : d = d' := by
  cases t with
  | mk x y =>
    cases d <;> cases d' <;>
      simp [find_neighbor, add_vectors, NEIGHBOR_OFFSETS, Vector.ext_iff] at h ⊢ <;>
      omega

/-- No tile is its own neighbor. -/
theorem neighbor_ne (t : Vector) (d : Direction) : find_neighbor t d ≠ t := by
  cases t with
  | mk x y =>
    cases d <;>
      simp [find_neighbor, add_vectors, NEIGHBOR_OFFSETS, Vector.ext_iff]

/-- Membership in the symmetric difference is exclusive-or of memberships. -/
theorem mem_setXor (v : Vector) (a b : Finset Vector) :
    v ∈ setXor a b ↔ Xor' (v ∈ a) (v ∈ b) := by
  simp only [setXor, Finset.mem_union, Finset.mem_sdiff, Xor']

/-- C3: for every tile t (x and y arbitrary signed integers, including
negative y) and every direction D,
find_neighbor(find_neighbor(t, D), opposite(D)) == t, where opposite pairs
East/West, Northeast/Southwest, and Northwest/Southeast. -/
theorem c3_neighbor_mutual_inverse (t : Vector) (d : Direction) :
    find_neighbor (find_neighbor t d) (opposite d) = t :=
  neighbor_opposite t d

/-- The spec's offset table (section 4.1), keyed by direction, each value a
function of odd_row: East (+1,0), West (-1,0), Northeast (1-odd_row,-1),
Northwest (-odd_row,-1), Southeast (1-odd_row,+1), Southwest (-odd_row,+1). -/
def specOffset : Direction → ℤ → Vector
  | Direction.East => fun _ => ⟨1, 0⟩
  | Direction.West => fun _ => ⟨-1, 0⟩
  | Direction.Northeast => fun odd_row => ⟨1 - odd_row, -1⟩
  | Direction.Northwest => fun odd_row => ⟨-odd_row, -1⟩
  | Direction.Southeast => fun odd_row => ⟨1 - odd_row, 1⟩
  | Direction.Southwest => fun odd_row => ⟨-odd_row, 1⟩

/-- C4: find_neighbor(t, D) adds the spec table's offset for D at
odd_row = t.y mod 2; that value is 0 or 1 even for negative y, and the
offset applied is independent of t.x (replacing the x-coordinate shifts the
result by exactly the same amount, and leaves the y-coordinate motion
unchanged). -/
theorem c4_offsets_match_spec_table (t : Vector) (d : Direction) (x' : ℤ) :
    find_neighbor t d = add_vectors t (specOffset d (t.y % 2)) ∧
    (t.y % 2 = 0 ∨ t.y % 2 = 1) ∧
    (find_neighbor ⟨x', t.y⟩ d).x - x' = (find_neighbor t d).x - t.x ∧
    (find_neighbor ⟨x', t.y⟩ d).y - t.y = (find_neighbor t d).y - t.y := by
  refine ⟨?_, by omega, ?_, ?_⟩ <;>
    cases d <;>
      simp [find_neighbor, add_vectors, NEIGHBOR_OFFSETS, specOffset]

/-- The spec's active-neighbor count: the number of the six directions
whose neighbor of the cell lies in the grid. -/
def specActiveNeighborCount (grid : Finset Vector) (c : Vector) : ℕ :=
  (directionList.filter fun d => decide (find_neighbor c d ∈ grid)).length

/-- The source's count over the neighbor list agrees with the spec's count
over directions. -/
theorem count_eq_specCount (grid : Finset Vector) (c : Vector) :
    get_active_neighbor_count grid c = specActiveNeighborCount grid c := by
  rw [get_active_neighbor_count, get_neighbor_cells, List.countP_map,
    specActiveNeighborCount, ← List.countP_eq_length_filter]
  rfl

/-- The spec's flip set: active tiles whose active-neighbor count is 0 or
above 2, together with the accessible inactive cells (all neighbors of all
active tiles, minus the active tiles) whose count is exactly 2; all counts
taken in the input grid. -/
def flipSetSpec (grid : Finset Vector) : Finset Vector :=
  (grid.filter fun c =>
      specActiveNeighborCount grid c = 0 ∨ specActiveNeighborCount grid c > 2)
  ∪ (((grid.biUnion fun c => (directionList.map (find_neighbor c)).toFinset) \ grid).filter
      fun c => specActiveNeighborCount grid c = 2)

/-- C1: step_simulation(grid) equals grid XOR flipset, where flipset is the
union of the active tiles with active-neighbor count 0 or above 2 and the
accessible inactive cells with count exactly 2, all counts taken in the
input grid. -/
theorem c1_step_is_grid_xor_flipset (grid : Finset Vector) :
    step_simulation grid = setXor grid (flipSetSpec grid) := by
  have hch : get_changes grid = flipSetSpec grid := by
    ext c
    simp [get_changes, get_active_cells, get_accessible_inactive_cells,
      get_neighbor_cells, flipSetSpec, count_eq_specCount]
  rw [step_simulation, apply_changes, hch]

/-- Folding single-tile symmetric differences tracks the parity of the
occurrence count: membership toggles once per occurrence. -/
theorem mem_foldl_setXor (l : List Vector) (g : Finset Vector) (v : Vector) :
    v ∈ l.foldl (fun grid val => setXor grid {val}) g ↔
      Xor' (v ∈ g) (Odd (l.count v)) := by
  induction l generalizing g with
  | nil => simp [Xor']
  | cons x xs ih =>
    rw [List.foldl_cons, ih (setXor g {x})]
    by_cases hvx : v = x
    · subst hvx
      simp only [List.count_cons_self, mem_setXor, Finset.mem_singleton,
        Nat.odd_add_one, Xor']
      tauto
    · simp only [List.count_cons_of_ne hvx, mem_setXor, Finset.mem_singleton,
        hvx, Xor']
      tauto

/-- C2: active_values returns exactly the tiles occurring an odd number of
times among the resolved destinations; two identical destinations (and
nothing else) cancel to the empty grid. -/
theorem c2_active_values_odd_parity (l : List Vector) (v : Vector) (t : Vector) :
    (v ∈ active_values l ↔ Odd (l.count v)) ∧ active_values [t, t] = ∅ := by
  constructor
  · rw [active_values, mem_foldl_setXor]
    simp [Xor']
  · show setXor (setXor ∅ {t}) {t} = ∅
    simp [setXor]

/-- Unfolding the generator loop n times from a grid reaches the n-th
iterate of step_simulation. -/
theorem run_simulation_eq_iterate (n : ℕ) (g : Finset Vector) :
    run_simulation g n = step_simulation^[n] g := by
  induction n generalizing g with
  | zero => rfl
  | succ n ih =>
    rw [run_simulation, ih (step_simulation g), Function.iterate_succ_apply]

/-- C6: the element at index n of run_simulation(initial) is
step_simulation iterated n times on the initial grid; index 0 is the
initial grid unmodified, and index 100 is the grid after exactly 100
steps. -/
theorem c6_nth_generation (g : Finset Vector) (n : ℕ) :
    nth (run_simulation g) n = step_simulation^[n] g ∧
    nth (run_simulation g) 0 = g ∧
    nth (run_simulation g) 100 = step_simulation^[100] g :=
  ⟨run_simulation_eq_iterate n g, rfl, run_simulation_eq_iterate 100 g⟩

/-- Walking a direction list and then its reversed opposites returns to the
start tile. -/
theorem foldl_neighbor_round_trip (p : List Direction) (t : Vector) :
    (p ++ (p.map opposite).reverse).foldl find_neighbor t = t := by
  induction p generalizing t with
  | nil => rfl
  | cons d p ih =>
    simp only [List.map_cons, List.reverse_cons, List.cons_append]
    rw [List.foldl_cons, ← List.append_assoc, List.foldl_append,
      ih (find_neighbor t d)]
    simp [neighbor_opposite]

/-- C7: resolving a path concatenated with its reverse-direction path (each
step replaced by its opposite, in reversed order) lands on the origin; the
empty path also resolves to the origin. -/
theorem c7_resolve_round_trip (p : List Direction) :
    directions_to_coords (p ++ (p.map opposite).reverse) = ⟨0, 0⟩ ∧
    directions_to_coords ([] : List Direction) = ⟨0, 0⟩ :=
  ⟨foldl_neighbor_round_trip p ⟨0, 0⟩, rfl⟩

/-- A lone active tile has no active neighbors. -/
theorem count_singleton_self (t : Vector) :
    get_active_neighbor_count {t} t = 0 := by
  rw [count_eq_specCount]
  simp [specActiveNeighborCount, Finset.mem_singleton, neighbor_ne]

/-- Each neighbor of a lone active tile sees exactly one active neighbor:
the unique way back is the opposite direction. -/
theorem count_singleton_of_neighbor (t : Vector) (d₀ : Direction) :
    get_active_neighbor_count {t} (find_neighbor t d₀) = 1 := by
  rw [count_eq_specCount, specActiveNeighborCount]
  have hiff : ∀ d : Direction,
      (find_neighbor (find_neighbor t d₀) d ∈ ({t} : Finset Vector)) ↔
        d = opposite d₀ := by
    intro d
    rw [Finset.mem_singleton]
    constructor
    · intro hd
      exact neighbor_injective (find_neighbor t d₀) d (opposite d₀)
        (hd.trans (neighbor_opposite t d₀).symm)
    · rintro rfl
      exact neighbor_opposite t d₀
  have hfe : (directionList.filter fun d =>
        decide (find_neighbor (find_neighbor t d₀) d ∈ ({t} : Finset Vector)))
      = directionList.filter fun d => decide (d = opposite d₀) := by
    apply List.filter_congr
    intro d _
    simp [hiff d]
  rw [hfe]
  cases d₀ <;> rfl

/-- Any accessible inactive cell of a singleton grid has active-neighbor
count exactly 1. -/
theorem accessible_singleton_count (t c : Vector)
    (h : c ∈ get_accessible_inactive_cells {t}) :
    get_active_neighbor_count {t} c = 1 := by
  simp only [get_accessible_inactive_cells, get_neighbor_cells,
    Finset.mem_sdiff, Finset.mem_biUnion, Finset.mem_singleton,
    List.mem_toFinset, List.mem_map] at h
  obtain ⟨⟨a, ha, d₀, _, hd⟩, _⟩ := h
  subst ha
  rw [← hd]
  exact count_singleton_of_neighbor a d₀

/-- C8: a lone active tile dies in one step (it has 0 active neighbors and
no accessible inactive cell has exactly 2), and stepping the empty grid
yields the empty grid. -/
theorem c8_singleton_dies (t : Vector) :
    step_simulation {t} = ∅ ∧
    step_simulation (∅ : Finset Vector) = ∅ ∧
    get_active_neighbor_count {t} t = 0 ∧
    (get_accessible_inactive_cells {t}).filter
      (fun c => get_active_neighbor_count {t} c = 2) = ∅ := by
  have hacc : (get_accessible_inactive_cells {t}).filter
      (fun c => get_active_neighbor_count {t} c = 2) = ∅ := by
    rw [Finset.filter_eq_empty_iff]
    intro c hc
    rw [accessible_singleton_count t c hc]
    omega
  have hch : get_changes {t} = {t} := by
    rw [get_changes, get_active_cells, hacc, Finset.union_empty,
      Finset.filter_singleton, if_pos]
    rw [count_singleton_self]
    omega
  refine ⟨?_, ?_, count_singleton_self t, hacc⟩
  · rw [step_simulation, apply_changes, hch]
    simp [setXor]
  · rw [step_simulation, apply_changes]
    have : get_changes (∅ : Finset Vector) = ∅ := by
      simp [get_changes, get_active_cells, get_accessible_inactive_cells]
    rw [this]
    simp [setXor]

/-- The spec's per-cell flip decision, a predicate of the cell and the
pre-step grid only: an active tile flips when its active-neighbor count is
0 or above 2; an accessible inactive cell flips when its count is exactly
2. -/
def flipDecision (grid : Finset Vector) (c : Vector) : Prop :=
  (c ∈ grid ∧ (get_active_neighbor_count grid c = 0 ∨
      get_active_neighbor_count grid c > 2))
  ∨ (c ∈ get_accessible_inactive_cells grid ∧
      get_active_neighbor_count grid c = 2)

/-- C9: step_simulation builds its full change set from the pre-step grid
and only then takes the symmetric difference with it, so the result is a
fresh set whose membership is exclusive-or of the input grid with a flip
decision that depends on the input grid alone — no flip decision of a step
feeds into another. -/
theorem c9_simultaneous_update (grid : Finset Vector) (c : Vector) :
    step_simulation grid = setXor grid (get_changes grid) ∧
    (c ∈ get_changes grid ↔ flipDecision grid c) ∧
    (c ∈ step_simulation grid ↔ Xor' (c ∈ grid) (flipDecision grid c)) := by
  have h2 : c ∈ get_changes grid ↔ flipDecision grid c := by
    simp [get_changes, get_active_cells, flipDecision]
  refine ⟨rfl, h2, ?_⟩
  rw [step_simulation, apply_changes, mem_setXor]
  simp only [h2]

/-- C10: load_grid's result does not depend on its `lines` parameter - the
body rebinds `lines` from the global `fp` before any use, so any two
parameter values against the same file state give the same grid. -/
theorem c10_load_grid_ignores_parameter (lines₁ lines₂ fp : List String) :
    load_grid lines₁ fp = load_grid lines₂ fp := rfl

/-- Appending a character other than `e`/`w` to a path leaves the parse
unchanged: the trailing character only sets `prev`, which the loop then
discards. -/
theorem pathAux_append_nonemit (c : Char) (hce : c ≠ 'e') (hcw : c ≠ 'w')
    (p : List Char) : ∀ prev, pathAux (p ++ [c]) prev = pathAux p prev := by
  induction p with
  | nil =>
    intro prev
    simp [pathAux, hce, hcw]
  | cons a as ih =>
    intro prev
    simp only [List.cons_append, pathAux, List.append_eq]
    by_cases ha : a = 'e' ∨ a = 'w'
    · rw [if_pos ha, if_pos ha]
      cases Direction.ofChars (prev ++ [a]) with
      | none => rfl
      | some d => rw [ih []]
    · rw [if_neg ha, if_neg ha]
      exact ih [a]

/-- C5 counterexample: the malformed path "n" (a trailing pending prefix)
parses without any error, returning the empty direction list - the
malformed portion is silently dropped, contradicting the claim that every
malformed string raises a fatal input-format error. -/
theorem c5_counterexample_trailing_n_no_error :
    path_to_directions ['n'] = Except.ok [] := rfl

/-- C5 amended: only an unrecognized combination completed by `e`/`w`
raises the fatal error; a trailing pending prefix (any non-`e`/`w`
character at the end) is silently dropped, and an earlier pending prefix is
silently overwritten by a later non-`e`/`w` character. -/
theorem c5_amended_partial_errors (p : List Char) :
    path_to_directions (p ++ ['n']) = path_to_directions p ∧
    path_to_directions (p ++ ['s']) = path_to_directions p ∧
    path_to_directions ['x', 'e'] = Except.error () ∧
    path_to_directions ['s', 'n', 'e'] = Except.ok [Direction.Northeast] :=
  ⟨pathAux_append_nonemit 'n' (by decide) (by decide) p [],
   pathAux_append_nonemit 's' (by decide) (by decide) p [],
   rfl, rfl⟩

end Day24
